import Mathlib

/-!
Verification development for the agentic data pipeline repository.

The embedding models the data-refinement engine (`src/agents/refiner/refiner_agent.py`)
and the stage orchestrator (`src/orchestrator/orchestrator.py`).  A pandas DataFrame is
modelled as an ordered list of named columns; a cell is `Option Val` with `none` playing
the role of NaN/missing.  External library calls (pandas statistics, sklearn imputers and
scalers, pyjanitor name cleaning, rapidfuzz similarity) are modelled explicitly where a
verified property depends on them, and as parameters where no property does (the sklearn
scalers, whose standard and robust variants use irrational arithmetic).
-/

set_option allowUnsafeReducibility true
attribute [local semireducible] Rat.mul Rat.add Rat.sub Rat.div Rat.inv Rat.neg Rat.blt

namespace Pipeline

/-- A scalar cell value: either a number (pandas int64/float64 entries, modelled in ℚ)
or a string (object-dtype entries). -/
inductive Val where
  | num (q : ℚ)
  | str (s : String)
deriving DecidableEq, Repr

/-- A cell of a DataFrame: `none` models NaN / missing. -/
abbrev Cell := Option Val

/-- One named column of a DataFrame.  `numeric` models the pandas dtype test
`df[col].dtype in ["int64", "float64"]`. -/
structure Column where
  name : String
  numeric : Bool
  cells : List Cell
deriving DecidableEq, Repr

/-- A DataFrame: an ordered list of columns, row-aligned. -/
abbrev Dataset := List Column

/-- Python len(df): the row count of a DataFrame (length of its columns). -/
def numRows (d : Dataset) : Nat :=
  (d.head?.map (fun c => c.cells.length)).getD 0

/-- Number of missing entries in a list of cells (`series.isnull().sum()`). -/
def countNone (cells : List Cell) : Nat :=
  (cells.filter (fun c => c.isNone)).length

/-- The non-missing numeric entries of a list of cells. -/
def numsOf (cells : List Cell) : List ℚ :=
  cells.filterMap (fun c => match c with
    | some (Val.num q) => some q
    | _ => none)

/-- The non-missing entries of a list of cells (`series.dropna()`). -/
def valsOf (cells : List Cell) : List Val :=
  cells.filterMap id

/-- Arithmetic mean of a list of rationals (0 on the empty list, which the callers
never hit). -/
def meanQ (l : List ℚ) : ℚ :=
  l.sum / l.length

/-- pandas `Series.median()`: sort, take the middle element, or the average of the two
middle elements for an even count (0 on the empty list, which the callers never hit). -/
def medianQ (l : List ℚ) : ℚ :=
  let s := l.insertionSort (· ≤ ·)
  if s.length = 0 then 0
  else if s.length % 2 = 1 then s.getD (s.length / 2) 0
  else (s.getD (s.length / 2 - 1) 0 + s.getD (s.length / 2) 0) / 2

/-- A total order on values used to model how pandas sorts the tied candidates inside
`Series.mode()` (numbers by value, strings lexicographically). -/
def valLe (a b : Val) : Bool :=
  match a, b with
  | Val.num p, Val.num q => p ≤ q
  | Val.num _, Val.str _ => true
  | Val.str _, Val.num _ => false
  | Val.str s, Val.str t => s ≤ t

/-- Keep the first occurrence of each element, in order of first appearance
(pandas `Series.unique()`). -/
def firstSeenAux (seen : List Val) : List Val → List Val
  | [] => []
  | x :: xs => if x ∈ seen then firstSeenAux seen xs else x :: firstSeenAux (x :: seen) xs

/-- Distinct values of a list in order of first appearance. -/
def firstSeen (l : List Val) : List Val :=
  firstSeenAux [] l

/-- The minimum of a list of values under `valLe` relative to a starting candidate. -/
def minValFrom (b : Val) : List Val → Val
  | [] => b
  | x :: xs => minValFrom (if valLe x b then x else b) xs

/-- pandas `Series.mode()[0]`: among the non-missing values of maximal occurrence
count, the least under the pandas sort order; `none` when the series has no
non-missing value. -/
def modeVal (cells : List Cell) : Option Val :=
  let vs := valsOf cells
  let distinct := firstSeen vs
  let maxCnt := (distinct.map (fun v => vs.count v)).foldl max 0
  match distinct.filter (fun v => vs.count v = maxCnt) with
  | [] => none
  | c :: cs => some (minValFrom c cs)

/-- Replace every missing cell by `v` (`series.fillna(v)`). -/
def fillCells (cells : List Cell) (v : Val) : List Cell :=
  cells.map (fun c => some (c.getD v))

/-- One entry of the transformation log (`self.transformation_log` of `RefinerAgent`);
each constructor mirrors the dict appended by the corresponding method. -/
inductive Entry where
  | cleanNames (columnsBefore columnsAfter : List String)
  | missingDrop (rowsDropped : Nat)
  | missingSimple (numericStrategy categoricalStrategy : String)
  | missingKnn
  | missingSmart
  | dedup (duplicatesRemoved : Nat) (subset : Option (List String))
  | unify (column : String) (unifiedCount : Nat) (threshold : ℚ)
  | normalizeCols (method : String) (columns : List String)
deriving DecidableEq, Repr

/-- The duplicates-removed count logged by `remove_duplicates` (0 for other entries). -/
def Entry.dedupRemoved : Entry → Nat
  | Entry.dedup n _ => n
  | _ => 0

/-- Models pyjanitor `clean_names` (external library): lowercase and replace
non-alphanumeric characters by underscores. -/
def cleanName (s : String) : String :=
  String.mk (s.toList.map (fun ch =>
    let c := ch.toLower
    if c.isAlphanum then c else '_'))

/-- Models `RefinerAgent.clean_column_names`: rename every column and log one entry. -/
def clean_column_names (d : Dataset) : Dataset × List Entry :=
  let d2 := d.map (fun c => { c with name := cleanName c.name })
  (d2, [Entry.cleanNames (d.map (fun c => c.name)) (d2.map (fun c => c.name))])

/-- The percentage of missing entries of column `c` in a DataFrame with `n` rows
(`df_clean[col].isnull().sum() / len(df_clean) * 100`). -/
def missingPct (c : Column) (n : Nat) : ℚ :=
  (countNone c.cells : ℚ) / (n : ℚ) * 100

/-- The `smart` branch, per column: drop at more than 50 percent missing, impute the
median into numeric columns and the mode (or the literal "Unknown") into the others,
leave complete columns untouched. -/
def smartCol (n : Nat) (c : Column) : Option Column :=
  if missingPct c n > 50 then none
  else if missingPct c n > 0 then
    if c.numeric then
      some { c with cells := fillCells c.cells (Val.num (medianQ (numsOf c.cells))) }
    else
      some { c with cells := fillCells c.cells ((modeVal c.cells).getD (Val.str "Unknown")) }
  else some c

/-- The `smart` strategy over a whole DataFrame.  The Python loop iterates over the
column index captured before any drop, row count never changes, and each column is
read and written independently, so it acts column-wise. -/
def handleSmart (d : Dataset) : Dataset :=
  d.filterMap (smartCol (numRows d))

/-- Pandas `df.dropna()`: the row indices free of missing values, then each column restricted
to them. -/
def completeRowIdx (d : Dataset) : List Nat :=
  (List.range (numRows d)).filter (fun i => d.all (fun c => (c.cells.getD i none).isSome))

/-- Restrict a list of cells to the given row indices. -/
def selectCells (idxs : List Nat) (cells : List Cell) : List Cell :=
  idxs.map (fun i => cells.getD i none)

/-- Pandas `df.dropna()` on the whole DataFrame. -/
def dropNaRows (d : Dataset) : Dataset :=
  d.map (fun c => { c with cells := selectCells (completeRowIdx d) c.cells })

/-- Impute a numeric column by a per-column statistic of its non-missing values;
columns without a non-missing value are left unchanged. -/
def imputeNumericWith (stat : List ℚ → ℚ) (c : Column) : Column :=
  match numsOf c.cells with
  | [] => c
  | qs => { c with cells := fillCells c.cells (Val.num (stat qs)) }

/-- Impute a categorical column with its most frequent value (sklearn
`SimpleImputer(strategy="most_frequent")`); all-missing columns are left unchanged. -/
def imputeMostFrequent (c : Column) : Column :=
  match modeVal c.cells with
  | none => c
  | some v => { c with cells := fillCells c.cells v }

/-- Models sklearn `SimpleImputer` on the numeric block: dispatch on the numeric
strategy name, failing (as sklearn does at fit time) on an unrecognized one. -/
def simpleImputeNumeric (strategy : String) (c : Column) : Except String Column :=
  if strategy = "mean" then Except.ok (imputeNumericWith meanQ c)
  else if strategy = "median" then Except.ok (imputeNumericWith medianQ c)
  else if strategy = "most_frequent" then Except.ok (imputeMostFrequent c)
  else Except.error ("Can only use these strategies: " ++ strategy)

/-- Models sklearn `SimpleImputer` on the categorical block (`most_frequent` or
`constant`, whose default fill value for object data is "missing_value"). -/
def simpleImputeCategorical (strategy : String) (c : Column) : Except String Column :=
  if strategy = "most_frequent" then Except.ok (imputeMostFrequent c)
  else if strategy = "constant" then
    Except.ok { c with cells := fillCells c.cells (Val.str "missing_value") }
  else Except.error ("Can only use these strategies: " ++ strategy)

/-- Map a fallible column transform over exactly the columns selected by `p`. -/
def mapColsM (p : Column → Bool) (f : Column → Except String Column) :
    Dataset → Except String Dataset
  | [] => Except.ok []
  | c :: cs => do
    let c2 ← if p c then f c else Except.ok c
    let cs2 ← mapColsM p f cs
    Except.ok (c2 :: cs2)

/-- Squared nan-euclidean distance between two rows of the numeric block, scaled by
total/present coordinates as in sklearn; `none` when no coordinate is shared.
Ordering by squared distance agrees with ordering by distance, so the square root of
the library is not needed. -/
def nanDist2 (r1 r2 : List (Option ℚ)) : Option ℚ :=
  let pairs := (r1.zip r2).filterMap (fun pr => match pr with
    | (some a, some b) => some ((a - b) * (a - b))
    | _ => none)
  if pairs.length = 0 then none
  else some ((r1.length : ℚ) / (pairs.length : ℚ) * pairs.sum)

/-- Row `i` of the numeric block of `cols`. -/
def numRowAt (cols : List Column) (i : Nat) : List (Option ℚ) :=
  cols.map (fun c => match c.cells.getD i none with
    | some (Val.num q) => some q
    | _ => none)

/-- Models sklearn `KNNImputer(n_neighbors=5)` (external library) for one missing
entry: uniform mean of the values of the 5 nearest donor rows under nan-euclidean
distance, falling back to the column mean when no donor has a defined distance. -/
def knnFill (cols : List Column) (n : Nat) (colVals : List Cell) (i : Nat) : ℚ :=
  let donors := (List.range n).filterMap (fun j =>
    match colVals.getD j none with
    | some (Val.num v) =>
      match nanDist2 (numRowAt cols i) (numRowAt cols j) with
      | some dd => some (dd, v)
      | none => none
    | _ => none)
  let nearest := (donors.insertionSort (fun a b => a.1 ≤ b.1)).take 5
  if nearest.length = 0 then meanQ (numsOf colVals)
  else meanQ (nearest.map (fun pr => pr.2))

/-- KNN imputation of one numeric column inside the numeric block `cols`;
all-missing columns are left unchanged. -/
def knnImputeCol (cols : List Column) (n : Nat) (c : Column) : Column :=
  if (numsOf c.cells).length = 0 then c
  else { c with cells := (List.range c.cells.length).map (fun i =>
    match c.cells.getD i none with
    | some v => some v
    | none => some (Val.num (knnFill cols n c.cells i))) }

/-- Total most-frequent imputation wrapped in `Except`, for use with `mapColsM`. -/
def imputeMostFrequentE (c : Column) : Except String Column :=
  Except.ok (imputeMostFrequent c)

/-- Models `RefinerAgent.handle_missing_values`: dispatch on the strategy name.  A name
outside {drop, simple, knn, smart} falls through every branch, so the copied
DataFrame is returned unchanged with no log entry and no error. -/
def handle_missing_values (d : Dataset) (strategy : String)
    (numeric_strategy : String := "median") (categorical_strategy : String := "most_frequent") :
    Except String (Dataset × List Entry) :=
  if strategy = "drop" then
    let d2 := dropNaRows d
    Except.ok (d2, [Entry.missingDrop (numRows d - numRows d2)])
  else if strategy = "simple" then do
    let d2 ← if (d.filter (fun c => c.numeric)).length > 0 then
        mapColsM (fun c => c.numeric) (simpleImputeNumeric numeric_strategy) d
      else Except.ok d
    let d3 ← if (d2.filter (fun c => !c.numeric)).length > 0 then
        mapColsM (fun c => !c.numeric) (simpleImputeCategorical categorical_strategy) d2
      else Except.ok d2
    Except.ok (d3, [Entry.missingSimple numeric_strategy categorical_strategy])
  else if strategy = "knn" then do
    let numCols := d.filter (fun c => c.numeric)
    let d2 := if numCols.length > 0 then
        d.map (fun c => if c.numeric then knnImputeCol numCols (numRows d) c else c)
      else d
    let d3 ← if (d2.filter (fun c => !c.numeric)).length > 0 then
        mapColsM (fun c => !c.numeric) imputeMostFrequentE d2
      else Except.ok d2
    Except.ok (d3, [Entry.missingKnn])
  else if strategy = "smart" then
    Except.ok (handleSmart d, [Entry.missingSmart])
  else
    Except.ok (d, [])

/-- The row key used by `df.duplicated(subset=...)`: the tuple of this row's cells over
the key columns.  Missing values compare equal to each other, as in pandas. -/
def keyAt (cols : List Column) (i : Nat) : List Cell :=
  cols.map (fun c => c.cells.getD i none)

/-- Indices of the rows kept by `drop_duplicates(keep="first")`: a row survives iff no
earlier row agrees with it on every key column. -/
def keepIdx (cols : List Column) (n : Nat) : List Nat :=
  (List.range n).filter (fun i => decide (∀ j ∈ List.range i, keyAt cols j ≠ keyAt cols i))

/-- The key columns for a duplicate-elimination subset: all columns when the subset is
omitted, else the columns whose name belongs to the subset. -/
def subsetCols (d : Dataset) (subset : Option (List String)) : List Column :=
  match subset with
  | none => d
  | some s => d.filter (fun c => s.contains c.name)

/-- The deduplicated DataFrame: every column restricted to the kept row indices. -/
def dedupData (d : Dataset) (subset : Option (List String)) : Dataset :=
  d.map (fun c =>
    { c with cells := selectCells (keepIdx (subsetCols d subset) (numRows d)) c.cells })

/-- The core of duplicate-row elimination: keep the first-occurrence rows under the
key columns of the subset, and log the removed count and subset. -/
def dedupCore (d : Dataset) (subset : Option (List String)) : Dataset × Entry :=
  (dedupData d subset, Entry.dedup (numRows d - numRows (dedupData d subset)) subset)

/-- Models `RefinerAgent.remove_duplicates`: drop later duplicate rows under the optional
column subset, keeping the first occurrence, and log the removed count and subset.
A subset naming an absent column raises (pandas `KeyError`). -/
def remove_duplicates (d : Dataset) (subset : Option (List String) := none) :
    Except String (Dataset × Entry) :=
  match subset with
  | some s =>
    if s.all (fun nm => d.any (fun c => c.name = nm)) then
      Except.ok (dedupCore d subset)
    else Except.error "KeyError: subset column not found"
  | none => Except.ok (dedupCore d none)

/-- Python `str(v)` as used by the unifier when stringifying candidate values. -/
def pyStr (v : Val) : String :=
  match v with
  | Val.str s => s
  | Val.num q => toString q

/-- Longest-common-subsequence length on character lists, structurally recursive on a
fuel argument (every call consumes one character, so `a.length + b.length` fuel is
enough). -/
def lcsLenF : Nat → List Char → List Char → Nat
  | 0, _, _ => 0
  | _ + 1, [], _ => 0
  | _ + 1, _ :: _, [] => 0
  | f + 1, x :: xs, y :: ys =>
    if x = y then 1 + lcsLenF f xs ys
    else max (lcsLenF f xs (y :: ys)) (lcsLenF f (x :: xs) ys)

/-- Length of a longest common subsequence of two character lists; the rapidfuzz
InDel distance of `a` and `b` is `a.length + b.length - 2 * lcsLen a b`. -/
def lcsLen (a b : List Char) : Nat :=
  lcsLenF (a.length + b.length) a b

/-- rapidfuzz `fuzz.ratio` (normalized InDel similarity, 0–100), exactly in ℚ. -/
def scoreQ (a b : String) : ℚ :=
  if a.length + b.length = 0 then 100
  else 100 * (2 * (lcsLen a.toList b.toList : ℚ)) / ((a.length : ℚ) + (b.length : ℚ))

/-- rapidfuzz `process.extract(query, choices, scorer=fuzz.ratio, limit=None)`:
every choice paired with its score, sorted by score descending. -/
def extractSorted (q : String) (choices : List String) : List (String × ℚ) :=
  (choices.map (fun c => (c, scoreQ q c))).insertionSort (fun a b => b.2 ≤ a.2)

/-- The similar group of an anchor string: the choices scoring at least the threshold
against it, in extract order (score descending). -/
def similarGroup (t : ℚ) (q : String) (choices : List String) : List String :=
  ((extractSorted q choices).filter (fun m => t ≤ m.2)).map (fun m => m.1)

/-- Python `max(l, key=f)`: the first element attaining the maximal key. -/
def maxByFirst (f : String → Nat) (x : String) (xs : List String) : String :=
  xs.foldl (fun b y => if f y > f b then y else b) x

/-- Occurrence count of the string `x` in the column (`(df[column] == x).sum()`;
only string cells can compare equal to a Python string). -/
def countOf (cells : List Cell) (x : String) : Nat :=
  cells.count (some (Val.str x))

/-- The canonical form of a similar group: its member with the highest occurrence
count in the column, ties broken by position in the group. -/
def canonicalOf (cells : List Cell) : List String → String
  | [] => ""
  | x :: xs => maxByFirst (countOf cells) x xs

/-- Insertion into a Python dict modelled as an ordered association list with unique
keys: an existing key is overwritten in place, a new key is appended. -/
def dictInsert (m : List (String × String)) (k v : String) : List (String × String) :=
  if m.any (fun p => p.1 = k) then
    m.map (fun p => if p.1 = k then (k, v) else p)
  else m ++ [(k, v)]

/-- Membership of a value in the `processed` set of the unifier.  The Python set holds
the strings added from similar groups, so only a string value can test positive. -/
def inProcessed (processed : List String) (v : Val) : Bool :=
  match v with
  | Val.str s => processed.contains s
  | Val.num _ => false

/-- One iteration of the unifier's anchor loop. -/
def unifyStep (cells : List Cell) (t : ℚ) (choices : List String)
    (st : List (String × String) × List String) (v : Val) :
    List (String × String) × List String :=
  if inProcessed st.2 v then st
  else if 1 < (similarGroup t (pyStr v) choices).length then
    ((similarGroup t (pyStr v) choices).foldl
      (fun m sv => dictInsert m sv (canonicalOf cells (similarGroup t (pyStr v) choices))) st.1,
     st.2 ++ similarGroup t (pyStr v) choices)
  else st

/-- The value → canonical mapping built by `unify_categories` from one column's
cells: iterate the distinct non-missing values in first-seen order, group by fuzzy
similarity, and map each whole group to its canonical form. -/
def valueMapping (cells : List Cell) (t : ℚ) : List (String × String) :=
  let uniq := firstSeen (valsOf cells)
  let choices := uniq.map pyStr
  (uniq.foldl (unifyStep cells t choices) ([], [])).1

/-- Dict lookup with default: `value_mapping.get(s, s)` as performed by
`Series.replace`. -/
def lookupD (m : List (String × String)) (s : String) : String :=
  ((m.find? (fun p => p.1 = s)).map (fun p => p.2)).getD s

/-- Pandas `Series.replace(value_mapping)`: rewrite every string cell through the mapping;
other cells cannot equal a string key and stay unchanged. -/
def applyMapping (m : List (String × String)) (cells : List Cell) : List Cell :=
  cells.map (fun c => match c with
    | some (Val.str s) => some (Val.str (lookupD m s))
    | other => other)

/-- Models `RefinerAgent.unify_categories`: build the fuzzy mapping over the named column
and apply it, logging the mapping size and the threshold when the mapping is
non-empty; an absent column is a logged no-op. -/
def unify_categories (d : Dataset) (column : String) (t : ℚ := 80) :
    Dataset × List Entry :=
  match d.find? (fun c => c.name = column) with
  | none => (d, [])
  | some c =>
    let m := valueMapping c.cells t
    if m.length = 0 then (d, [])
    else
      (d.map (fun c2 => if c2.name = column then { c2 with cells := applyMapping m c2.cells } else c2),
       [Entry.unify column m.length t])

/-- A family of fitted sklearn scalers indexed by method name (external library;
the standard and robust scalers use irrational arithmetic, and no verified property
depends on the scaled values). -/
abbrev ScalerFamily := String → List ℚ → List ℚ

/-- The column names `normalize_numeric_columns` operates on: the numeric columns, or
the explicitly requested names that exist in the DataFrame. -/
def selectedCols (d : Dataset) (columns : Option (List String)) : List String :=
  match columns with
  | none => (d.filter (fun c => c.numeric)).map (fun c => c.name)
  | some l => l.filter (fun nm => d.any (fun c => c.name = nm))

/-- Write a fitted scaler's output back into a column: the i-th non-missing numeric
cell receives the i-th scaled value, and missing cells stay missing — sklearn scalers
(0.20 and later) ignore NaN when fitting and preserve it in the transform.  A
non-numeric cell cannot occur in a numeric-dtype column and is left unchanged. -/
def scaleCells : List ℚ → List Cell → List Cell
  | _, [] => []
  | qs, none :: cs => none :: scaleCells qs cs
  | qs, some (Val.str s) :: cs => some (Val.str s) :: scaleCells qs cs
  | [], some (Val.num q) :: cs => some (Val.num q) :: scaleCells [] cs
  | q2 :: qt, some (Val.num _) :: cs => some (Val.num q2) :: scaleCells qt cs

/-- Models `RefinerAgent.normalize_numeric_columns`: select the numeric columns (or the
requested ones that exist), return unchanged with no log entry when none are selected,
raise on an unknown method name, else scale each selected column — the scaler is fit
on the non-missing values and missing cells pass through unchanged, as the sklearn
scalers accept NaN since 0.20. -/
def normalize_numeric_columns (fam : ScalerFamily) (d : Dataset)
    (method : String := "standard") (columns : Option (List String) := none) :
    Except String (Dataset × List Entry) :=
  if (selectedCols d columns).length = 0 then Except.ok (d, [])
  else if method = "standard" ∨ method = "minmax" ∨ method = "robust" then
    Except.ok
      (d.map (fun c => if (selectedCols d columns).contains c.name then
          { c with cells := scaleCells (fam method (numsOf c.cells)) c.cells }
        else c),
       [Entry.normalizeCols method (selectedCols d columns)])
  else Except.error ("Unknown normalization method: " ++ method)

/-- The results dict returned by `RefinerAgent.run`; `transformationLog = none` models
the absence of the `transformation_log` key. -/
structure RunResults where
  operationsPerformed : List String
  rowsBefore : Nat
  rowsAfter : Nat
  colsBefore : Nat
  colsAfter : Nat
  status : String
  error : Option String
  transformationLog : Option (List Entry)
deriving DecidableEq, Repr

/-- The four operation bodies `RefinerAgent.run` can call.  Each is fallible: the
methods re-raise any exception from the underlying libraries. -/
structure OpImpls where
  clean : Dataset → Except String (Dataset × List Entry)
  missing : Dataset → Except String (Dataset × List Entry)
  dedupRows : Dataset → Except String (Dataset × List Entry)
  scale : Dataset → Except String (Dataset × List Entry)

/-- Sequentially try the listed stages whose name is in `ops`, accumulating the
refined DataFrame, the transformation log, and the performed-operations list; stop at
the first exception, keeping the state reached so far. -/
def runOps (stages : List (String × (Dataset → Except String (Dataset × List Entry))))
    (ops : List String) (st : Dataset × List Entry × List String) :
    (Dataset × List Entry × List String) × Option String :=
  match stages with
  | [] => (st, none)
  | (nm, impl) :: rest =>
    if nm ∈ ops then
      match impl st.1 with
      | Except.ok (d2, es) => runOps rest ops (d2, st.2.1 ++ es, st.2.2 ++ [nm])
      | Except.error msg => (st, some msg)
    else runOps rest ops st

/-- The fixed dispatch order of `RefinerAgent.run`. -/
def stageList (impls : OpImpls) : List (String × (Dataset → Except String (Dataset × List Entry))) :=
  [("clean_column_names", impls.clean),
   ("handle_missing_values", impls.missing),
   ("remove_duplicates", impls.dedupRows),
   ("normalize", impls.scale)]

/-- The default operations list of `RefinerAgent.run`. -/
def defaultOperations : List String :=
  ["clean_column_names", "handle_missing_values", "remove_duplicates"]

/-- Assemble the results dict of `RefinerAgent.run` from the stage processor's
outcome: a caught exception yields status failed with the error message, after-counts
left at their initial 0, and no transformation_log key. -/
def assembleRun (df : Dataset) (r : (Dataset × List Entry × List String) × Option String) :
    Dataset × RunResults :=
  match r.2 with
  | none =>
    (r.1.1,
     { operationsPerformed := r.1.2.2, rowsBefore := numRows df, rowsAfter := numRows r.1.1,
       colsBefore := df.length, colsAfter := r.1.1.length, status := "success",
       error := none, transformationLog := some r.1.2.1 })
  | some msg =>
    (r.1.1,
     { operationsPerformed := r.1.2.2, rowsBefore := numRows df, rowsAfter := 0,
       colsBefore := df.length, colsAfter := 0, status := "failed",
       error := some msg, transformationLog := none })

/-- Models `RefinerAgent.run`: reset the log, apply the recognized operations of `operations`
in the fixed internal order, and assemble the results dict.  An exception inside an
operation is caught: the run returns the DataFrame reached so far together with a
`failed` results dict whose after-counts stay 0 and which lacks the log key. -/
def refiner_run (impls : OpImpls) (df : Dataset) (operations : Option (List String)) :
    Dataset × RunResults :=
  assembleRun df (runOps (stageList impls) (operations.getD defaultOperations) (df, [], []))

/-- The concrete operation bodies of `RefinerAgent.run`: `clean_column_names`,
`handle_missing_values(strategy="smart")`, `remove_duplicates()` and
`normalize_numeric_columns()` with their default arguments. -/
def realImpls (fam : ScalerFamily) : OpImpls where
  clean := fun d => Except.ok (clean_column_names d)
  missing := fun d => handle_missing_values d "smart"
  dedupRows := fun d => (remove_duplicates d none).map (fun pr => (pr.1, [pr.2]))
  scale := fun d => normalize_numeric_columns fam d "standard" none

/-- One stage record of the pipeline metrics (timing fields are real time and are not
modelled; no verified property mentions them). -/
structure StageRecord where
  stage : String
  status : String
deriving DecidableEq, Repr

/-- The state of `self.pipeline_metrics` at the end of a run of a freshly constructed orchestrator. -/
structure PipelineMetrics where
  stages : List StageRecord
  status : Option String
  error : Option String
deriving DecidableEq, Repr

/-- The stage-enabling configuration consumed by `run_pipeline`. -/
structure OrchConfig where
  inspectorEnabled : Bool
  refinerEnabled : Bool
  insightEnabled : Bool
  operations : Option (List String)
deriving Repr

/-- The external collaborators of the orchestrator: the inspector and insight agents
(returning the status string of their results dict) and the data-saving boundary.
Each can raise, which the orchestrator's catch-all turns into a failed run. -/
structure Collab where
  inspectorRun : Dataset → Except String String
  insightRun : Dataset → Except String String
  saveData : Dataset → String → Except String Unit

/-- The dict returned by `run_pipeline`; `metricsWritten` records whether the metrics
JSON artifact was written during the run. -/
structure OrchResult where
  status : String
  error : Option String
  metrics : PipelineMetrics
  processedData : Option Dataset
  metricsWritten : Bool
deriving DecidableEq, Repr

/-- The stage chain of `PipelineOrchestrator.run_pipeline` on a freshly initialized
orchestrator: load, inspector, refiner, insight, save in order, each appending a
stage record; any exception escaping a stage body aborts the chain, carrying the
records accumulated so far (no record is appended for the raising stage).  The
refiner stage itself never raises: `RefinerAgent.run` catches its own exceptions and
reports them through its status field. -/
def pipelineChain (cfg : OrchConfig) (co : Collab) (impls : OpImpls)
    (inputLoad : Except String Dataset) (outputPath : Option String) :
    Except (List StageRecord × String) (List StageRecord × Dataset) := do
    let df ← inputLoad.mapError (fun m => ([], m))
    let st1 := [StageRecord.mk "load_data" "success"]
    let st2 ← if cfg.inspectorEnabled then
        match co.inspectorRun df with
        | Except.ok s => Except.ok (st1 ++ [StageRecord.mk "inspector" s])
        | Except.error m => Except.error (st1, m)
      else Except.ok st1
    let refined := if cfg.refinerEnabled then
        let r := refiner_run impls df cfg.operations
        (r.1, st2 ++ [StageRecord.mk "refiner" r.2.status])
      else (df, st2)
    let st4 ← if cfg.insightEnabled then
        match co.insightRun refined.1 with
        | Except.ok s => Except.ok (refined.2 ++ [StageRecord.mk "insight" s])
        | Except.error m => Except.error (refined.2, m)
      else Except.ok refined.2
    let st5 ← match outputPath with
      | some p =>
        match co.saveData refined.1 p with
        | Except.ok _ => Except.ok (st4 ++ [StageRecord.mk "save_data" "success"])
        | Except.error m => Except.error (st4, m)
      | none => Except.ok st4
    Except.ok (st5, refined.1)

/-- Assemble the result dict of `run_pipeline` from the outcome of the stage chain:
the success path writes the metrics artifact and carries the processed DataFrame, the
exception handler marks the run failed without writing the artifact. -/
def run_pipeline (cfg : OrchConfig) (co : Collab) (impls : OpImpls)
    (inputLoad : Except String Dataset) (outputPath : Option String) : OrchResult :=
  match pipelineChain cfg co impls inputLoad outputPath with
  | Except.ok (stages, df) =>
    { status := "success", error := none,
      metrics := { stages := stages, status := some "success", error := none },
      processedData := some df, metricsWritten := true }
  | Except.error (stages, m) =>
    { status := "failed", error := some m,
      metrics := { stages := stages, status := some "failed", error := some m },
      processedData := none, metricsWritten := false }

/-! Support definitions for the verified properties. -/

/-- The names of the stages `RefinerAgent.run` dispatches, in its fixed internal
order. -/
def fixedOpNames : List String :=
  ["clean_column_names", "handle_missing_values", "remove_duplicates", "normalize"]

/-- An identity scaler family, used to instantiate runs whose verified behavior does
not depend on the scaled values. -/
def idFam : ScalerFamily := fun _ l => l

/-- A one-column numeric DataFrame with one duplicated row. -/
def exDup : Dataset :=
  [⟨"a", true, [some (Val.num 1), some (Val.num 1), some (Val.num 2)]⟩]

/-- The region column of the specification's unification scenario. -/
def regionCells : List Cell :=
  [some (Val.str "North"), some (Val.str "north"), some (Val.str "N"),
   some (Val.str "South")]

/-- The DataFrame of the specification's unification scenario. -/
def regionDf : Dataset :=
  [⟨"region", false, regionCells⟩]

/-- A three-column DataFrame exercising the smart missing-value cases: a numeric
column with 40 percent missing, a numeric column with 80 percent missing, and a
categorical column with 20 percent missing. -/
def exMixed : Dataset :=
  [⟨"age", true, [some (Val.num 20), none, some (Val.num 40), none, some (Val.num 60)]⟩,
   ⟨"score", true, [none, none, none, some (Val.num 10), none]⟩,
   ⟨"cat", false, [some (Val.str "x"), none, some (Val.str "x"), some (Val.str "y"),
                   some (Val.str "x")]⟩]

/-- Operation bodies whose clean step raises, modelling an exception inside the
refinement work (the remaining bodies are the concrete ones). -/
def failingImpls : OpImpls where
  clean := fun _ => Except.error "boom"
  missing := fun d => handle_missing_values d "smart"
  dedupRows := fun d => (remove_duplicates d none).map (fun pr => (pr.1, [pr.2]))
  scale := fun d => normalize_numeric_columns idFam d "standard" none

/-- Collaborators whose inspector, insight, and save steps all succeed. -/
def okCollab : Collab where
  inspectorRun := fun _ => Except.ok "success"
  insightRun := fun _ => Except.ok "success"
  saveData := fun _ _ => Except.ok ()

/-- A configuration enabling every stage with the default operations list. -/
def cfgAll : OrchConfig := ⟨true, true, true, none⟩

/-! Verified properties. -/

/-- C1, counterexample: a run in which the refine stage raises internally (the clean
step throws, so `RefinerAgent.run` reports status failed) still appends insight and
save_data StageRecords and terminates with overall status success, because the
refinement pipeline catches its own exceptions and the orchestrator does not abort —
the claim that no insight or save record exists and the overall status is failed is
false. -/
theorem C1_counterexample :
    (refiner_run failingImpls exDup cfgAll.operations).2.status = "failed" ∧
    (run_pipeline cfgAll okCollab failingImpls (Except.ok exDup)
        (some "out.csv")).status = "success" ∧
    StageRecord.mk "refiner" "failed"
        ∈ (run_pipeline cfgAll okCollab failingImpls (Except.ok exDup)
            (some "out.csv")).metrics.stages ∧
    StageRecord.mk "insight" "success"
        ∈ (run_pipeline cfgAll okCollab failingImpls (Except.ok exDup)
            (some "out.csv")).metrics.stages ∧
    StageRecord.mk "save_data" "success"
        ∈ (run_pipeline cfgAll okCollab failingImpls (Except.ok exDup)
            (some "out.csv")).metrics.stages := by
  refine ⟨rfl, rfl, ?_, ?_, ?_⟩ <;> decide

/-- C1, amended: when the refine stage fails internally, the metrics do record a
failed StageRecord for the refiner, but the orchestrator does not abort: the insight
(and save) stages still run and append their records, and the run terminates with
overall status success (with the metrics artifact written) whenever the remaining
stages succeed. -/
theorem C1_amended (cfg : OrchConfig) (co : Collab) (impls : OpImpls) (df : Dataset)
    (outputPath : Option String) (insSt inSt : String)
    (hre : cfg.refinerEnabled = true)
    (hfail : (refiner_run impls df cfg.operations).2.status = "failed")
    (hins : cfg.inspectorEnabled = true → co.inspectorRun df = Except.ok insSt)
    (hin2 : cfg.insightEnabled = true →
      co.insightRun (refiner_run impls df cfg.operations).1 = Except.ok inSt)
    (hsave : ∀ p, outputPath = some p →
      co.saveData (refiner_run impls df cfg.operations).1 p = Except.ok ()) :
    (run_pipeline cfg co impls (Except.ok df) outputPath).status = "success" ∧
    (run_pipeline cfg co impls (Except.ok df) outputPath).metricsWritten = true ∧
    StageRecord.mk "refiner" "failed"
        ∈ (run_pipeline cfg co impls (Except.ok df) outputPath).metrics.stages ∧
    (cfg.insightEnabled = true → StageRecord.mk "insight" inSt
        ∈ (run_pipeline cfg co impls (Except.ok df) outputPath).metrics.stages) ∧
    (∀ p, outputPath = some p → StageRecord.mk "save_data" "success"
        ∈ (run_pipeline cfg co impls (Except.ok df) outputPath).metrics.stages) := by
  unfold run_pipeline pipelineChain
  cases hI : cfg.inspectorEnabled <;> cases hG : cfg.insightEnabled <;>
    cases hO : outputPath <;>
    simp only [hre, hI, hG, hfail, Except.instMonad, Except.bind, Except.mapError,
      Bind.bind, if_true, if_false, Bool.false_eq_true] <;>
    (try rw [hins hI]) <;> (try rw [hin2 hG]) <;> (try rw [hsave _ hO]) <;>
    simp [hfail]

/-- C1_amended applied to a concrete run whose refine stage raises in the clean step
while the inspector, insight, and save stages succeed (a save path is requested). -/
theorem C1_witness :
    (run_pipeline cfgAll okCollab failingImpls (Except.ok exDup)
        (some "out.csv")).status = "success" ∧
    (run_pipeline cfgAll okCollab failingImpls (Except.ok exDup)
        (some "out.csv")).metricsWritten = true ∧
    StageRecord.mk "refiner" "failed"
        ∈ (run_pipeline cfgAll okCollab failingImpls (Except.ok exDup)
            (some "out.csv")).metrics.stages ∧
    (cfgAll.insightEnabled = true → StageRecord.mk "insight" "success"
        ∈ (run_pipeline cfgAll okCollab failingImpls (Except.ok exDup)
            (some "out.csv")).metrics.stages) ∧
    (∀ p, (some "out.csv" : Option String) = some p → StageRecord.mk "save_data" "success"
        ∈ (run_pipeline cfgAll okCollab failingImpls (Except.ok exDup)
            (some "out.csv")).metrics.stages) :=
  C1_amended cfgAll okCollab failingImpls exDup (some "out.csv") "success" "success" rfl rfl
    (fun _ => rfl) (fun _ => rfl) (fun _ _ => rfl)

/-- C2, counterexample: a run whose load stage raises terminates with overall status
failed, and the metrics JSON artifact is not written before the result is returned —
the claim that the metrics are persisted on either outcome is false. -/
theorem C2_counterexample :
    (run_pipeline cfgAll okCollab failingImpls (Except.error "file not found") none).status
        = "failed" ∧
    (run_pipeline cfgAll okCollab failingImpls (Except.error "file not found") none).metricsWritten
        = false := by
  constructor <;> rfl

/-- C2, amended: the metrics artifact is written exactly when the run terminates with
overall status success; a failed run returns its result (still carrying the in-memory
metrics object) without persisting them. -/
theorem C2_amended (cfg : OrchConfig) (co : Collab) (impls : OpImpls)
    (inputLoad : Except String Dataset) (outputPath : Option String) :
    (run_pipeline cfg co impls inputLoad outputPath).metricsWritten = true ↔
    (run_pipeline cfg co impls inputLoad outputPath).status = "success" := by
  unfold run_pipeline
  cases hc : pipelineChain cfg co impls inputLoad outputPath with
  | ok v => simp
  | error v => simp

/-- C3, counterexample: calling the missing-value resolver with the unrecognized
strategy name "bogus" returns the DataFrame unchanged with no log entry and raises no
error, contradicting the claim that it fails with an InvalidStrategyError. -/
theorem C3_counterexample :
    handle_missing_values exMixed "bogus" "median" "most_frequent"
        = Except.ok (exMixed, ([] : List Entry)) ∧
    "bogus" ∉ ["smart", "simple", "knn", "drop"] := by
  constructor
  · rfl
  · decide

/-- C3, amended: a strategy name outside {smart, simple, knn, drop} is silently
ignored — the resolver returns the dataset unchanged with no ledger entry and no
error — and the smart and drop strategies never fail on any input. -/
theorem C3_amended (d : Dataset) (s ns cs : String)
    (h : s ∉ ["smart", "simple", "knn", "drop"]) :
    handle_missing_values d s ns cs = Except.ok (d, ([] : List Entry)) ∧
    handle_missing_values d "smart" ns cs
        = Except.ok (handleSmart d, [Entry.missingSmart]) ∧
    handle_missing_values d "drop" ns cs
        = Except.ok (dropNaRows d, [Entry.missingDrop (numRows d - numRows (dropNaRows d))]) := by
  refine ⟨?_, rfl, rfl⟩
  have h1 : s ≠ "drop" := fun e => h (by simp [e])
  have h2 : s ≠ "simple" := fun e => h (by simp [e])
  have h3 : s ≠ "knn" := fun e => h (by simp [e])
  have h4 : s ≠ "smart" := fun e => h (by simp [e])
  simp [handle_missing_values, h1, h2, h3, h4]

/-- C3_amended applied at a concrete unrecognized strategy name. -/
theorem C3_witness :
    handle_missing_values exMixed "bogus" "median" "most_frequent"
        = Except.ok (exMixed, ([] : List Entry)) ∧
    handle_missing_values exMixed "smart" "median" "most_frequent"
        = Except.ok (handleSmart exMixed, [Entry.missingSmart]) ∧
    handle_missing_values exMixed "drop" "median" "most_frequent"
        = Except.ok (dropNaRows exMixed,
            [Entry.missingDrop (numRows exMixed - numRows (dropNaRows exMixed))]) :=
  C3_amended exMixed "bogus" "median" "most_frequent" (by decide)

/-- C8, counterexample: on the rows North / north / N / South with threshold 80 the
unifier's mapping contains no binding for "N" (its similarity to "North" is 100/3,
below the threshold), contradicting the claim that "N" is mapped to "North". -/
theorem C8_counterexample :
    (valueMapping regionCells 80).find? (fun p => p.1 = "N") = none ∧
    scoreQ "North" "N" < 80 := by
  constructor
  · rfl
  · decide

/-- C8, amended: on those rows with threshold 80 the mapping binds "North" and
"north" to the canonical "North" (the identity binding included), leaves "N" and
"South" unchanged, and the appended ledger entry records unified_count = 2, the size
of the mapping. -/
theorem C8_amended :
    valueMapping regionCells 80 = [("North", "North"), ("north", "North")] ∧
    unify_categories regionDf "region" 80 =
      ([⟨"region", false,
          [some (Val.str "North"), some (Val.str "North"), some (Val.str "N"),
           some (Val.str "South")]⟩],
       [Entry.unify "region" 2 80]) := by
  constructor <;> rfl

/-- The stage processor only consults the operations list through membership of the
stage names. -/
theorem runOps_congr (stages : List (String × (Dataset → Except String (Dataset × List Entry))))
    (ops1 ops2 : List String) (st : Dataset × List Entry × List String)
    (h : ∀ nm ∈ stages.map Prod.fst, (nm ∈ ops1 ↔ nm ∈ ops2)) :
    runOps stages ops1 st = runOps stages ops2 st := by
  induction stages generalizing st with
  | nil => rfl
  | cons s rest ih =>
    obtain ⟨nm, impl⟩ := s
    have hs : nm ∈ ops1 ↔ nm ∈ ops2 := h nm (by simp)
    have hrest : ∀ x ∈ rest.map Prod.fst, (x ∈ ops1 ↔ x ∈ ops2) :=
      fun x hx => h x (by simp [hx])
    by_cases h1 : nm ∈ ops1
    · have h2 : nm ∈ ops2 := hs.mp h1
      cases him : impl st.1 with
      | ok pr => simp [runOps, h1, h2, him, ih _ hrest]
      | error m => simp [runOps, h1, h2, him]
    · have h2 : nm ∉ ops2 := fun hh => h1 (hs.mpr hh)
      simp [runOps, h1, h2, ih _ hrest]

/-- On a run with no exception, the performed-operations list is the fixed stage-name
order filtered by membership in the operations list. -/
theorem runOps_none_performed
    (stages : List (String × (Dataset → Except String (Dataset × List Entry))))
    (ops : List String) (st : Dataset × List Entry × List String)
    (h : (runOps stages ops st).2 = none) :
    (runOps stages ops st).1.2.2
      = st.2.2 ++ (stages.map Prod.fst).filter (fun nm => decide (nm ∈ ops)) := by
  induction stages generalizing st with
  | nil => simp [runOps]
  | cons s rest ih =>
    obtain ⟨nm, impl⟩ := s
    by_cases hm : nm ∈ ops
    · cases him : impl st.1 with
      | ok pr =>
        have h2 : (runOps rest ops (pr.1, st.2.1 ++ pr.2, st.2.2 ++ [nm])).2 = none := by
          have := h; simp [runOps, hm, him] at this; exact this
        have := ih (pr.1, st.2.1 ++ pr.2, st.2.2 ++ [nm]) h2
        simp [runOps, hm, him, this]
      | error m =>
        exfalso
        simp [runOps, hm, him] at h
    · have h2 : (runOps rest ops st).2 = none := by
        have := h; simp [runOps, hm] at this; exact this
      simp [runOps, hm, ih st h2]

/-- When the stage processor stops with an exception, the state it returns is exactly
the one produced by successfully processing a front segment of the stage list, and
the next enabled stage raised on that state's DataFrame. -/
theorem runOps_error_decomp
    (stages : List (String × (Dataset → Except String (Dataset × List Entry))))
    (ops : List String) (st st2 : Dataset × List Entry × List String) (msg : String)
    (h : runOps stages ops st = (st2, some msg)) :
    ∃ pre nm impl rest, stages = pre ++ (nm, impl) :: rest ∧ nm ∈ ops ∧
      runOps pre ops st = (st2, none) ∧ impl st2.1 = Except.error msg := by
  induction stages generalizing st with
  | nil => simp [runOps] at h
  | cons s rest ih =>
    obtain ⟨nm, impl⟩ := s
    by_cases hm : nm ∈ ops
    · cases him : impl st.1 with
      | ok pr =>
        have h2 : runOps rest ops (pr.1, st.2.1 ++ pr.2, st.2.2 ++ [nm]) = (st2, some msg) := by
          have := h; simp [runOps, hm, him] at this
          exact this
        obtain ⟨pre, nm2, impl2, rest2, he, hmem, hrun, herr⟩ := ih _ h2
        refine ⟨(nm, impl) :: pre, nm2, impl2, rest2, by simp [he], hmem, ?_, herr⟩
        simp [runOps, hm, him, hrun]
      | error m =>
        have h2 : st2 = st ∧ m = msg := by
          have := h; simp [runOps, hm, him] at this
          exact ⟨this.1.symm, this.2⟩
        refine ⟨[], nm, impl, rest, rfl, hm, ?_, ?_⟩
        · simp [runOps, h2.1]
        · rw [h2.1]; rw [him, h2.2]
    · have h2 : runOps rest ops st = (st2, some msg) := by
        have := h; simp [runOps, hm] at this; exact this
      obtain ⟨pre, nm2, impl2, rest2, he, hmem, hrun, herr⟩ := ih _ h2
      refine ⟨(nm, impl) :: pre, nm2, impl2, rest2, by simp [he], hmem, ?_, herr⟩
      simp [runOps, hm, hrun]

/-- C10: when an operation raises inside `RefinerAgent.run`, the run returns (rather
than propagates): the results record has status failed with the error message, its
rows_after and columns_after stay 0, no transformation_log field is present, and the
returned DataFrame is the one produced by the operations that completed before the
failing one (the next enabled stage raised on exactly that DataFrame). -/
theorem C10_theorem (impls : OpImpls) (df : Dataset) (operations : Option (List String))
    (h : (refiner_run impls df operations).2.status = "failed") :
    ∃ msg, (refiner_run impls df operations).2.error = some msg ∧
      (refiner_run impls df operations).2.rowsAfter = 0 ∧
      (refiner_run impls df operations).2.colsAfter = 0 ∧
      (refiner_run impls df operations).2.transformationLog = none ∧
      ∃ pre nm impl rest,
        stageList impls = pre ++ (nm, impl) :: rest ∧
        nm ∈ operations.getD defaultOperations ∧
        (∃ log perf,
          runOps pre (operations.getD defaultOperations) (df, [], [])
            = (((refiner_run impls df operations).1, log, perf), none)) ∧
        impl (refiner_run impls df operations).1 = Except.error msg := by
  unfold refiner_run at h ⊢
  cases hr : runOps (stageList impls) (operations.getD defaultOperations) (df, [], []) with
  | mk st2 err =>
    cases err with
    | none => rw [hr] at h; simp [assembleRun] at h
    | some msg =>
      obtain ⟨pre, nm, impl, rest, he, hmem, hrun, herr⟩ :=
        runOps_error_decomp _ _ _ _ _ hr
      exact ⟨msg, rfl, rfl, rfl, rfl, pre, nm, impl, rest, he, hmem,
        ⟨st2.2.1, st2.2.2, by simpa using hrun⟩, herr⟩

/-- C10_theorem applied to a run whose clean step raises on a concrete DataFrame. -/
theorem C10_witness :
    ∃ msg, (refiner_run failingImpls exDup none).2.error = some msg ∧
      (refiner_run failingImpls exDup none).2.rowsAfter = 0 ∧
      (refiner_run failingImpls exDup none).2.colsAfter = 0 ∧
      (refiner_run failingImpls exDup none).2.transformationLog = none ∧
      ∃ pre nm impl rest,
        stageList failingImpls = pre ++ (nm, impl) :: rest ∧
        nm ∈ (none : Option (List String)).getD defaultOperations ∧
        (∃ log perf,
          runOps pre ((none : Option (List String)).getD defaultOperations) (exDup, [], [])
            = (((refiner_run failingImpls exDup none).1, log, perf), none)) ∧
        impl (refiner_run failingImpls exDup none).1 = Except.error msg :=
  C10_theorem failingImpls exDup none rfl

/-- C9: `RefinerAgent.run` dispatches the recognized operations in its fixed internal
order — two operation lists agreeing on membership of the four dispatched names give
identical runs (DataFrame and results both), and on a successful run the performed
operations are exactly the fixed-order names filtered by membership. -/
theorem C9_theorem (fam : ScalerFamily) (d : Dataset) (ops1 ops2 : List String)
    (h : ∀ nm ∈ fixedOpNames, (nm ∈ ops1 ↔ nm ∈ ops2)) :
    refiner_run (realImpls fam) d (some ops1) = refiner_run (realImpls fam) d (some ops2) ∧
    ((refiner_run (realImpls fam) d (some ops1)).2.status = "success" →
      (refiner_run (realImpls fam) d (some ops1)).2.operationsPerformed
        = fixedOpNames.filter (fun nm => decide (nm ∈ ops1))) := by
  have hnames : (stageList (realImpls fam)).map Prod.fst = fixedOpNames := rfl
  constructor
  · unfold refiner_run
    rw [runOps_congr (stageList (realImpls fam)) ((some ops1).getD defaultOperations)
      ((some ops2).getD defaultOperations) (d, [], []) (by simpa [hnames] using h)]
  · intro hs
    unfold refiner_run at hs ⊢
    cases hr : runOps (stageList (realImpls fam)) ((some ops1).getD defaultOperations)
        (d, [], []) with
    | mk st2 err =>
      cases err with
      | some msg => rw [hr] at hs; simp [assembleRun] at hs
      | none =>
        have := runOps_none_performed (stageList (realImpls fam))
          ((some ops1).getD defaultOperations) (d, [], []) (by rw [hr])
        rw [hr] at this
        simpa [hnames, assembleRun, Option.getD] using this

/-- C9_theorem applied to two concrete permuted operation lists (one with an extra
unrecognized name) on a concrete DataFrame. -/
theorem C9_witness :
    refiner_run (realImpls idFam) exDup (some ["remove_duplicates", "clean_column_names"])
      = refiner_run (realImpls idFam) exDup
          (some ["clean_column_names", "bogus_op", "remove_duplicates"]) ∧
    ((refiner_run (realImpls idFam) exDup
        (some ["remove_duplicates", "clean_column_names"])).2.status = "success" →
      (refiner_run (realImpls idFam) exDup
        (some ["remove_duplicates", "clean_column_names"])).2.operationsPerformed
        = fixedOpNames.filter
            (fun nm => decide (nm ∈ ["remove_duplicates", "clean_column_names"]))) :=
  C9_theorem idFam exDup ["remove_duplicates", "clean_column_names"]
    ["clean_column_names", "bogus_op", "remove_duplicates"] (by decide)

/-- Membership in the kept-row indices: in range, and no earlier row has the same key. -/
theorem mem_keepIdx (cols : List Column) (n i : Nat) :
    i ∈ keepIdx cols n ↔ i < n ∧ ∀ j < i, keyAt cols j ≠ keyAt cols i := by
  simp [keepIdx, List.mem_filter, List.mem_range]

/-- The kept indices are strictly increasing. -/
theorem keepIdx_sorted (cols : List Column) (n : Nat) :
    (keepIdx cols n).Pairwise (· < ·) :=
  (List.pairwise_lt_range n).filter _

/-- Two distinct kept rows never share a key. -/
theorem keepIdx_keys_distinct (cols : List Column) (n : Nat) :
    (keepIdx cols n).Pairwise (fun i j => keyAt cols i ≠ keyAt cols j) := by
  refine (keepIdx_sorted cols n).imp_of_mem ?_
  intro a b ha hb hlt
  exact ((mem_keepIdx cols n b).mp hb).2 a hlt

/-- Reading a selected cell list at an in-range position gives the original cell at
the selected index. -/
theorem selectCells_getD (idxs : List Nat) (cells : List Cell) (i : Nat)
    (h : i < idxs.length) :
    (selectCells idxs cells).getD i none = cells.getD (idxs.getD i 0) none := by
  unfold selectCells
  simp [List.getD_eq_getElem?_getD, List.getElem?_map, List.getElem?_eq_getElem h]

/-- The key of a selected row equals the key of the original row it came from. -/
theorem keyAt_selected (cols : List Column) (idxs : List Nat) (i : Nat)
    (h : i < idxs.length) :
    keyAt (cols.map (fun c => { c with cells := selectCells idxs c.cells })) i
      = keyAt cols (idxs.getD i 0) := by
  unfold keyAt
  rw [List.map_map]
  exact List.map_congr_left (fun c _ => selectCells_getD idxs c.cells i h)

/-- Selecting every index in order is the identity. -/
theorem selectCells_range (cells : List Cell) :
    selectCells (List.range cells.length) cells = cells := by
  apply List.ext_getElem
  · simp [selectCells]
  · intro i h1 h2
    simp only [selectCells, List.getElem_map, List.getElem_range]
    exact List.getD_eq_getElem cells none h2


/-- Restricting every column commutes with selecting the subset key columns. -/
theorem subsetCols_selected (d : Dataset) (subset : Option (List String))
    (idxs : List Nat) :
    subsetCols (d.map (fun c => { c with cells := selectCells idxs c.cells })) subset
      = (subsetCols d subset).map (fun c => { c with cells := selectCells idxs c.cells }) := by
  cases subset with
  | none => rfl
  | some s =>
    simp only [subsetCols, List.filter_map]
    rfl

/-- A deduplicated DataFrame built from a non-empty one has one row per kept index. -/
theorem numRows_dedupData (d : Dataset) (subset : Option (List String)) (h : d ≠ []) :
    numRows (dedupData d subset) = (keepIdx (subsetCols d subset) (numRows d)).length := by
  cases d with
  | nil => exact absurd rfl h
  | cons c0 cs => simp [dedupData, numRows, selectCells]

/-- When no two rows below `m` share a key, every index below `m` is kept. -/
theorem keepIdx_all (cols2 : List Column) (m : Nat)
    (h : ∀ i < m, ∀ j < i, keyAt cols2 j ≠ keyAt cols2 i) :
    keepIdx cols2 m = List.range m := by
  unfold keepIdx
  rw [List.filter_eq_self]
  intro i hi
  rw [List.mem_range] at hi
  rw [decide_eq_true_eq]
  intro j hj
  exact h i hi j (List.mem_range.mp hj)

/-- Reading the kept-index list inside bounds. -/
theorem keepIdx_getD (cols : List Column) (n j : Nat)
    (h : j < (keepIdx cols n).length) :
    (keepIdx cols n).getD j 0 = (keepIdx cols n).get ⟨j, h⟩ := by
  rw [List.getD_eq_getElem?_getD, List.getElem?_eq_getElem h]
  rfl

/-- After deduplication every remaining row is kept again: the keys of the restricted
key columns are pairwise distinct. -/
theorem keepIdx_dedupData (cols : List Column) (n : Nat) :
    keepIdx (cols.map (fun c => { c with cells := selectCells (keepIdx cols n) c.cells }))
        (keepIdx cols n).length = List.range (keepIdx cols n).length := by
  apply keepIdx_all
  intro i hi j hj
  rw [keyAt_selected _ _ _ (Nat.lt_trans hj hi), keyAt_selected _ _ _ hi]
  rw [keepIdx_getD cols n j (Nat.lt_trans hj hi), keepIdx_getD cols n i hi]
  exact (List.pairwise_iff_getElem.mp (keepIdx_keys_distinct cols n)) j i
    (Nat.lt_trans hj hi) hi hj

/-- Restricting every column of a DataFrame whose columns all have length `m` to the
full index range changes nothing. -/
theorem map_selectRange_id (d2 : Dataset) (m : Nat) (h : ∀ c ∈ d2, c.cells.length = m) :
    d2.map (fun c => { c with cells := selectCells (List.range m) c.cells }) = d2 := by
  have hcc : ∀ c ∈ d2, { c with cells := selectCells (List.range m) c.cells } = c := by
    intro c hc
    rw [← h c hc, selectCells_range]
  calc d2.map (fun c => { c with cells := selectCells (List.range m) c.cells })
      = d2.map id := List.map_congr_left hcc
    _ = d2 := List.map_id d2

/-- The function `dedupData` unfolded as a map over the columns. -/
theorem dedupData_eq (d : Dataset) (subset : Option (List String)) :
    dedupData d subset = d.map (fun c =>
      { c with cells := selectCells (keepIdx (subsetCols d subset) (numRows d)) c.cells }) :=
  rfl

/-- Deduplication is idempotent: applied to its own output, it keeps every row and
removes zero additional rows. -/
theorem dedupCore_idem (d : Dataset) (subset : Option (List String)) :
    dedupCore (dedupData d subset) subset = (dedupData d subset, Entry.dedup 0 subset) := by
  by_cases hne : d = []
  · subst hne; cases subset <;> rfl
  · have hki : keepIdx (subsetCols (dedupData d subset) subset) (numRows (dedupData d subset))
        = List.range (keepIdx (subsetCols d subset) (numRows d)).length := by
      rw [numRows_dedupData d subset hne]
      rw [dedupData_eq d subset]
      rw [subsetCols_selected]
      exact keepIdx_dedupData (subsetCols d subset) (numRows d)
    have hdata : dedupData (dedupData d subset) subset = dedupData d subset := by
      rw [dedupData_eq (dedupData d subset) subset]
      rw [hki]
      refine map_selectRange_id _ _ ?_
      intro c hc
      simp only [dedupData, List.mem_map] at hc
      rcases hc with ⟨c1, _, hc1⟩
      rw [← hc1]
      simp [selectCells]
    unfold dedupCore
    rw [hdata, Nat.sub_self]

/-- Every row has a kept representative no later than itself with the same key. -/
theorem keepIdx_covers (cols : List Column) (n : Nat) :
    ∀ i < n, ∃ j ∈ keepIdx cols n, j ≤ i ∧ keyAt cols j = keyAt cols i := by
  intro i
  induction i using Nat.strong_induction_on with
  | _ i ih =>
    intro hi
    by_cases hfirst : ∀ j < i, keyAt cols j ≠ keyAt cols i
    · exact ⟨i, (mem_keepIdx cols n i).mpr ⟨hi, hfirst⟩, Nat.le_refl i, rfl⟩
    · push_neg at hfirst
      rcases hfirst with ⟨j, hj, hkey⟩
      rcases ih j hj (Nat.lt_trans hj hi) with ⟨k, hk, hkle, hkk⟩
      exact ⟨k, hk, Nat.le_trans hkle (Nat.le_of_lt hj), by rw [hkk, hkey]⟩

/-- C5: duplicate-row elimination is idempotent — re-applying it to its own output
removes zero additional rows and returns the output unchanged — and each elimination
keeps exactly the first occurrence of every duplicate group in row order: a kept row
has no earlier row with its key, and every row has a kept representative no later
than itself with the same key. -/
theorem C5_theorem (d : Dataset) (subset : Option (List String)) (d2 : Dataset) (e : Entry)
    (h : remove_duplicates d subset = Except.ok (d2, e)) :
    remove_duplicates d2 subset = Except.ok (d2, Entry.dedup 0 subset) ∧
    (∀ i ∈ keepIdx (subsetCols d subset) (numRows d), ∀ j < i,
      keyAt (subsetCols d subset) j ≠ keyAt (subsetCols d subset) i) ∧
    (∀ i < numRows d, ∃ j ∈ keepIdx (subsetCols d subset) (numRows d),
      j ≤ i ∧ keyAt (subsetCols d subset) j = keyAt (subsetCols d subset) i) ∧
    d2 = dedupData d subset := by
  cases subset with
  | none =>
    simp only [remove_duplicates, Except.ok.injEq] at h
    have hd2 : dedupData d none = d2 := congrArg Prod.fst h
    refine ⟨?_, ?_, keepIdx_covers _ _, hd2.symm⟩
    · simp only [remove_duplicates]
      rw [← hd2, dedupCore_idem]
    · intro i hi j hj
      exact ((mem_keepIdx _ _ i).mp hi).2 j hj
  | some s =>
    simp only [remove_duplicates] at h
    split at h
    case isTrue hall =>
      simp only [Except.ok.injEq] at h
      have hd2 : dedupData d (some s) = d2 := congrArg Prod.fst h
      refine ⟨?_, ?_, keepIdx_covers _ _, hd2.symm⟩
      · simp only [remove_duplicates]
        have hnames : (s.all (fun nm => d2.any (fun c => c.name = nm))) = true := by
          rw [← hd2, dedupData_eq]
          simpa [List.any_map, Function.comp] using hall
        rw [if_pos hnames, ← hd2, dedupCore_idem]
      · intro i hi j hj
        exact ((mem_keepIdx _ _ i).mp hi).2 j hj
    case isFalse hall =>
      exact absurd h (by simp)

/-- C5_theorem applied to a concrete one-column DataFrame with one duplicate row and
the omitted subset. -/
theorem C5_witness :
    remove_duplicates ([⟨"a", true, [some (Val.num 1), some (Val.num 2)]⟩] : Dataset) none
        = Except.ok (([⟨"a", true, [some (Val.num 1), some (Val.num 2)]⟩] : Dataset),
            Entry.dedup 0 none) ∧
    (∀ i ∈ keepIdx (subsetCols exDup none) (numRows exDup), ∀ j < i,
      keyAt (subsetCols exDup none) j ≠ keyAt (subsetCols exDup none) i) ∧
    (∀ i < numRows exDup, ∃ j ∈ keepIdx (subsetCols exDup none) (numRows exDup),
      j ≤ i ∧ keyAt (subsetCols exDup none) j = keyAt (subsetCols exDup none) i) ∧
    ([⟨"a", true, [some (Val.num 1), some (Val.num 2)]⟩] : Dataset) = dedupData exDup none :=
  C5_theorem exDup none
    ([⟨"a", true, [some (Val.num 1), some (Val.num 2)]⟩] : Dataset)
    (Entry.dedup 1 none) rfl

/-- The smart per-column transform never changes a column name. -/
theorem smartCol_name (n : Nat) (c c2 : Column) (h : smartCol n c = some c2) :
    c2.name = c.name := by
  unfold smartCol at h
  split at h
  · exact absurd h (by simp)
  · split at h
    · split at h <;> (simp only [Option.some.injEq] at h; rw [← h])
    · simp only [Option.some.injEq] at h
      rw [← h]

/-- C6: under the smart strategy, a column more than half missing is absent from the
output (distinct column names assumed, as a DataFrame has); a partially missing
numeric column appears with its missing cells replaced by the column median; a
partially missing non-numeric column appears with its missing cells replaced by the
column mode, or the literal "Unknown" when no mode exists; a complete column appears
unchanged. -/
theorem C6_theorem (d : Dataset) (hnd : (d.map Column.name).Nodup) (c : Column)
    (hc : c ∈ d) :
    (missingPct c (numRows d) > 50 →
      c.name ∉ (handleSmart d).map Column.name) ∧
    (0 < missingPct c (numRows d) → missingPct c (numRows d) ≤ 50 → c.numeric = true →
      ({ c with cells := fillCells c.cells (Val.num (medianQ (numsOf c.cells))) } : Column)
        ∈ handleSmart d) ∧
    (0 < missingPct c (numRows d) → missingPct c (numRows d) ≤ 50 → c.numeric = false →
      ({ c with cells := fillCells c.cells ((modeVal c.cells).getD (Val.str "Unknown")) } : Column)
        ∈ handleSmart d) ∧
    (missingPct c (numRows d) = 0 → c ∈ handleSmart d) := by
  refine ⟨?_, ?_, ?_, ?_⟩
  · intro hgt hmem
    rcases List.mem_map.mp hmem with ⟨c2, hc2, hname⟩
    rcases List.mem_filterMap.mp hc2 with ⟨c1, hc1, hsc⟩
    have hn1 : c1.name = c.name := by rw [← hname, smartCol_name _ _ _ hsc]
    have hceq : c1 = c :=
      List.inj_on_of_nodup_map hnd hc1 hc hn1
    rw [hceq] at hsc
    unfold smartCol at hsc
    rw [if_pos hgt] at hsc
    exact absurd hsc (by simp)
  · intro h0 hle hnum
    refine List.mem_filterMap.mpr ⟨c, hc, ?_⟩
    unfold smartCol
    rw [if_neg (not_lt.mpr hle), if_pos h0, if_pos hnum]
  · intro h0 hle hnum
    refine List.mem_filterMap.mpr ⟨c, hc, ?_⟩
    unfold smartCol
    rw [if_neg (not_lt.mpr hle), if_pos h0]
    rw [hnum]
    simp
  · intro h0
    refine List.mem_filterMap.mpr ⟨c, hc, ?_⟩
    unfold smartCol
    rw [if_neg (by rw [h0]; norm_num), if_neg (by rw [h0]; norm_num)]

/-- C6_theorem applied to the mixed example DataFrame at each of its three columns:
the 80 percent missing numeric column, the 40 percent missing numeric column, and
the 20 percent missing categorical column. -/
theorem C6_witness :
    (missingPct ⟨"score", true, [none, none, none, some (Val.num 10), none]⟩
        (numRows exMixed) > 50 ∧
      "score" ∉ (handleSmart exMixed).map Column.name) ∧
    (({ name := "age", numeric := true,
        cells := fillCells [some (Val.num 20), none, some (Val.num 40), none,
          some (Val.num 60)] (Val.num (medianQ (numsOf [some (Val.num 20), none,
          some (Val.num 40), none, some (Val.num 60)]))) } : Column) ∈ handleSmart exMixed) ∧
    (({ name := "cat", numeric := false,
        cells := fillCells [some (Val.str "x"), none, some (Val.str "x"),
          some (Val.str "y"), some (Val.str "x")]
          ((modeVal [some (Val.str "x"), none, some (Val.str "x"), some (Val.str "y"),
            some (Val.str "x")]).getD (Val.str "Unknown")) } : Column)
      ∈ handleSmart exMixed) := by
  refine ⟨⟨by decide, ?_⟩, ?_, ?_⟩
  · exact (C6_theorem exMixed (by decide)
      ⟨"score", true, [none, none, none, some (Val.num 10), none]⟩ (by decide)).1
      (by decide)
  · exact (C6_theorem exMixed (by decide)
      ⟨"age", true, [some (Val.num 20), none, some (Val.num 40), none, some (Val.num 60)]⟩
      (by decide)).2.1 (by decide) (by decide) rfl
  · exact (C6_theorem exMixed (by decide)
      ⟨"cat", false, [some (Val.str "x"), none, some (Val.str "x"), some (Val.str "y"),
        some (Val.str "x")]⟩ (by decide)).2.2.1 (by decide) (by decide) rfl

/-- Python max with a key function returns an element of the candidates. -/
theorem maxByFirst_mem (f : String → Nat) (x : String) (xs : List String) :
    maxByFirst f x xs ∈ x :: xs := by
  induction xs generalizing x with
  | nil => exact List.mem_singleton.mpr rfl
  | cons y ys ih =>
    have h1 : maxByFirst f x (y :: ys) = maxByFirst f (if f y > f x then y else x) ys := rfl
    rw [h1]
    rcases List.mem_cons.mp (ih (if f y > f x then y else x)) with he | hm2
    · rw [he]
      split
      · exact List.mem_cons_of_mem x (List.mem_cons_self y ys)
      · exact List.mem_cons_self x (y :: ys)
    · exact List.mem_cons_of_mem x (List.mem_cons_of_mem y hm2)

/-- Python max with a key function attains the maximal key among the candidates. -/
theorem maxByFirst_ge (f : String → Nat) (x : String) (xs : List String) :
    ∀ y ∈ x :: xs, f (maxByFirst f x xs) ≥ f y := by
  induction xs generalizing x with
  | nil =>
    intro y hy
    obtain rfl := List.mem_singleton.mp hy
    exact Nat.le_refl _
  | cons z zs ih =>
    intro y hy
    have h1 : maxByFirst f x (z :: zs) = maxByFirst f (if f z > f x then z else x) zs := rfl
    rw [h1]
    have hbase : f (maxByFirst f (if f z > f x then z else x) zs)
        ≥ f (if f z > f x then z else x) :=
      ih (if f z > f x then z else x) _ (List.mem_cons_self _ _)
    have hgex : f (maxByFirst f (if f z > f x then z else x) zs) ≥ f x := by
      by_cases hzx : f z > f x
      · rw [if_pos hzx] at hbase ⊢
        exact Nat.le_trans (Nat.le_of_lt hzx) hbase
      · rw [if_neg hzx] at hbase ⊢
        exact hbase
    have hgez : f (maxByFirst f (if f z > f x then z else x) zs) ≥ f z := by
      by_cases hzx : f z > f x
      · rw [if_pos hzx] at hbase ⊢
        exact hbase
      · rw [if_neg hzx] at hbase ⊢
        exact Nat.le_trans (Nat.le_of_not_lt hzx) hbase
    rcases List.mem_cons.mp hy with rfl | hy2
    · exact hgex
    · rcases List.mem_cons.mp hy2 with rfl | hy3
      · exact hgez
      · exact ih (if f z > f x then z else x) y (List.mem_cons_of_mem _ hy3)

/-- The canonical form of a non-empty group belongs to it and attains the maximal
occurrence count. -/
theorem canonicalOf_spec (cells : List Cell) (g : List String) (hg : g ≠ []) :
    canonicalOf cells g ∈ g ∧
    ∀ v ∈ g, countOf cells (canonicalOf cells g) ≥ countOf cells v := by
  cases g with
  | nil => exact absurd rfl hg
  | cons x xs => exact ⟨maxByFirst_mem _ x xs, maxByFirst_ge _ x xs⟩

/-- Every binding of a dict insertion is the inserted one or an existing one. -/
theorem dictInsert_mem (m : List (String × String)) (k v : String) (p : String × String)
    (hp : p ∈ dictInsert m k v) : p = (k, v) ∨ p ∈ m := by
  unfold dictInsert at hp
  split at hp
  · rcases List.mem_map.mp hp with ⟨q, hq, hqe⟩
    by_cases hqk : q.1 = k
    · rw [if_pos hqk] at hqe
      exact Or.inl hqe.symm
    · rw [if_neg hqk] at hqe
      rw [← hqe]
      exact Or.inr hq
  · rcases List.mem_append.mp hp with hm | hm
    · exact Or.inr hm
    · rcases List.mem_singleton.mp hm with rfl
      exact Or.inl rfl

/-- Every binding after mapping a whole group to a canonical value is either one of
the new group bindings or an existing one. -/
theorem foldl_dictInsert_mem (g : List String) (c : String)
    (m : List (String × String)) (p : String × String)
    (hp : p ∈ g.foldl (fun m sv => dictInsert m sv c) m) :
    (p.1 ∈ g ∧ p.2 = c) ∨ p ∈ m := by
  induction g generalizing m with
  | nil => exact Or.inr hp
  | cons sv gs ih =>
    rw [List.foldl_cons] at hp
    rcases ih (dictInsert m sv c) hp with ⟨h1, h2⟩ | hm
    · exact Or.inl ⟨List.mem_cons_of_mem sv h1, h2⟩
    · rcases dictInsert_mem m sv c p hm with rfl | hm2
      · exact Or.inl ⟨List.mem_cons_self sv gs, rfl⟩
      · exact Or.inr hm2

/-- Invariant of the unifier's anchor loop: every binding maps a member of some
anchor's similar group to that group's canonical form. -/
theorem unify_fold_good (cells : List Cell) (t : ℚ) (choices : List String)
    (anchors : List Val) (l : List Val) (hl : ∀ x ∈ l, x ∈ anchors)
    (st : List (String × String) × List String)
    (hst : ∀ p ∈ st.1, ∃ a ∈ anchors,
      p.1 ∈ similarGroup t (pyStr a) choices ∧
      p.2 = canonicalOf cells (similarGroup t (pyStr a) choices)) :
    ∀ p ∈ (l.foldl (unifyStep cells t choices) st).1, ∃ a ∈ anchors,
      p.1 ∈ similarGroup t (pyStr a) choices ∧
      p.2 = canonicalOf cells (similarGroup t (pyStr a) choices) := by
  induction l generalizing st with
  | nil => exact hst
  | cons v vs ih =>
    intro p hp
    rw [List.foldl_cons] at hp
    have hstep : ∀ q ∈ (unifyStep cells t choices st v).1, ∃ a ∈ anchors,
        q.1 ∈ similarGroup t (pyStr a) choices ∧
        q.2 = canonicalOf cells (similarGroup t (pyStr a) choices) := by
      intro q hq
      unfold unifyStep at hq
      split at hq
      · exact hst q hq
      · split at hq
        · rcases foldl_dictInsert_mem _ _ _ _ hq with ⟨hq1, hq2⟩ | hqm
          · exact ⟨v, hl v (List.mem_cons_self v vs), hq1, hq2⟩
          · exact hst q hqm
        · exact hst q hq
    exact ih (fun x hx => hl x (List.mem_cons_of_mem v hx)) (unifyStep cells t choices st v)
      hstep p hp

/-- C7: every raw value in the unifier's final mapping resolves to the canonical form
of the similar group (computed from some anchor of the distinct-value list) that
contains it, and that canonical's occurrence count in the original column is at least
the count of every member of that group. -/
theorem C7_theorem (cells : List Cell) (t : ℚ) (p : String × String)
    (hp : p ∈ valueMapping cells t) :
    ∃ a ∈ firstSeen (valsOf cells),
      p.1 ∈ similarGroup t (pyStr a) ((firstSeen (valsOf cells)).map pyStr) ∧
      p.2 = canonicalOf cells (similarGroup t (pyStr a) ((firstSeen (valsOf cells)).map pyStr)) ∧
      ∀ v ∈ similarGroup t (pyStr a) ((firstSeen (valsOf cells)).map pyStr),
        countOf cells p.2 ≥ countOf cells v := by
  simp only [valueMapping] at hp
  rcases unify_fold_good cells t ((firstSeen (valsOf cells)).map pyStr)
      (firstSeen (valsOf cells)) (firstSeen (valsOf cells)) (fun x hx => hx)
      ([], []) (by simp) p hp with ⟨a, ha, hmem, hcan⟩
  refine ⟨a, ha, hmem, hcan, ?_⟩
  have hne : similarGroup t (pyStr a) ((firstSeen (valsOf cells)).map pyStr) ≠ [] :=
    List.ne_nil_of_mem hmem
  intro v hv
  rw [hcan]
  exact (canonicalOf_spec cells _ hne).2 v hv

/-- C7_theorem applied to the binding of "north" in the region scenario's mapping. -/
theorem C7_witness :
    ∃ a ∈ firstSeen (valsOf regionCells),
      "north" ∈ similarGroup 80 (pyStr a) ((firstSeen (valsOf regionCells)).map pyStr) ∧
      "North" = canonicalOf regionCells
        (similarGroup 80 (pyStr a) ((firstSeen (valsOf regionCells)).map pyStr)) ∧
      ∀ v ∈ similarGroup 80 (pyStr a) ((firstSeen (valsOf regionCells)).map pyStr),
        countOf regionCells "North" ≥ countOf regionCells v :=
  C7_theorem regionCells 80 ("north", "North") (by decide)

end Pipeline




